import Mathlib

/-!
Verification development for the InterShare SDK transfer engine.

Shallow embedding of the Rust sources under `src/intershare_sdk/src/`:
`discovery.rs`, `tar.rs`, `progress.rs`, `connection_request.rs`,
`share_store.rs`, `nearby_server.rs`.  Pure logic is translated into
executable Lean functions; effectful code (file system, streams, the
cancel flag) is made explicit as threaded state / environment records.
-/

namespace InterShare

/-! ## Discovery data model

Message shapes from the protocol crate, restricted to the fields the SDK
code actually touches (`device.id`, `device.name`, `ble.uuid`, whole-record
equality for the "any field differs" update check). -/

structure Device where
  id : String
  name : String
  protocolVersion : Option Nat
deriving DecidableEq, Repr

structure BluetoothLeConnectionInfo where
  uuid : String
  psm : Nat
deriving DecidableEq, Repr

structure TcpConnectionInfo where
  hostname : String
  port : Nat
deriving DecidableEq, Repr

structure DeviceConnectionInfo where
  device : Option Device
  ble : Option BluetoothLeConnectionInfo
  tcp : Option TcpConnectionInfo
deriving DecidableEq, Repr

/-- Tagged union carried by a `DeviceDiscoveryMessage`. -/
inductive DiscoveryContent
  | deviceConnectionInfo (info : DeviceConnectionInfo)
  | offlineDeviceId (id : String)
deriving DecidableEq, Repr

structure DeviceDiscoveryMessage where
  content : Option DiscoveryContent
deriving DecidableEq, Repr

/-! ## Discovery registry (`discovery.rs`)

Both the per-instance map `discovered_devices` and the process-wide map
`DISCOVERED_DEVICES` are `HashMap<String, DeviceConnectionInfo>`; we model
each as an association list with replace-on-insert semantics. -/

abbrev Registry := List (String × DeviceConnectionInfo)

def regLookup : Registry → String → Option DeviceConnectionInfo
  | [], _ => none
  | e :: r, k => if e.fst = k then some e.snd else regLookup r k

def regRemove : Registry → String → Registry
  | [], _ => []
  | e :: r, k => if e.fst = k then regRemove r k else e :: regRemove r k

def regInsert (r : Registry) (k : String) (v : DeviceConnectionInfo) : Registry :=
  regRemove r k ++ [(k, v)]

/-- Observer notifications issued by the registry.  Each notification is
broadcast once to every registered `DeviceListUpdateDelegate`. -/
inductive DiscoveryEvent
  | deviceAdded (d : Device)
  | deviceRemoved (id : String)
deriving DecidableEq, Repr

/-- The two registries touched by `parse_discovery_message`: the instance
field `discovered_devices` and the global `DISCOVERED_DEVICES`. -/
structure DiscoveryState where
  instanceReg : Registry
  globalReg : Registry
deriving DecidableEq, Repr

/-- Stamping of the out-of-band BLE peripheral uuid into the stored info
(`discovery.rs` lines 171-176): only when a uuid is supplied and the info
already carries a `ble` record. -/
def stampBle (info : DeviceConnectionInfo) (bleUuid : Option String) : DeviceConnectionInfo :=
  match bleUuid, info.ble with
  | some u, some b => { info with ble := some { b with uuid := u } }
  | _, _ => info

/-- Model of `InternalDiscovery::parse_discovery_message` (`discovery.rs`
lines 149-204).  The input `data` is the decode result: `none` when the
bytes do not decode as a length-delimited `DeviceDiscoveryMessage`.
Returns the updated registries and the list of observer notifications in
order.  A `DeviceConnectionInfo` inserts into both maps; an
`OfflineDeviceId` removes only from the per-instance map (lines 199-202)
— `remove_discovered_device` just fires delegates, so the global
`DISCOVERED_DEVICES` map is never pruned. -/
def parse_discovery_message (st : DiscoveryState) (data : Option DeviceDiscoveryMessage)
    (bleUuid : Option String) : DiscoveryState × List DiscoveryEvent :=
  match data with
  | none => (st, [])
  | some msg =>
    match msg.content with
    | none => (st, [])
    | some (.deviceConnectionInfo info) =>
      match info.device with
      | none => (st, [])
      | some device =>
        let stamped := stampBle info bleUuid
        let events :=
          match regLookup st.instanceReg device.id with
          | some old => if old ≠ stamped then [DiscoveryEvent.deviceAdded device] else []
          | none => [DiscoveryEvent.deviceAdded device]
        ({ instanceReg := regInsert st.instanceReg device.id stamped,
           globalReg := regInsert st.globalReg device.id stamped }, events)
    | some (.offlineDeviceId did) =>
      ({ instanceReg := regRemove st.instanceReg did,
         globalReg := st.globalReg }, [DiscoveryEvent.deviceRemoved did])

/-- Model of `get_connection_details` (`discovery.rs` lines 33-41): read of
the global registry. -/
def get_connection_details (st : DiscoveryState) (device : Device) :
    Option DeviceConnectionInfo :=
  regLookup st.globalReg device.id

/-- Process a sequence of (decoded message, optional BLE uuid) sightings,
discarding the notifications. -/
def processAll (st : DiscoveryState) :
    List (DeviceDiscoveryMessage × Option String) → DiscoveryState
  | [] => st
  | m :: ms => processAll (parse_discovery_message st (some m.1) m.2).1 ms

/-- Well-formedness of a discovery message as assumed by claim C2: it has
content, and connection-info content embeds a device. -/
def wfMessage (m : DeviceDiscoveryMessage) : Prop :=
  match m.content with
  | none => False
  | some (.deviceConnectionInfo info) => info.device.isSome
  | some (.offlineDeviceId _) => True

instance (m : DeviceDiscoveryMessage) : Decidable (wfMessage m) := by
  unfold wfMessage
  match m.content with
  | none => exact inferInstanceAs (Decidable False)
  | some (.deviceConnectionInfo info) => exact inferInstanceAs (Decidable (_ = true))
  | some (.offlineDeviceId _) => exact inferInstanceAs (Decidable True)

/-- One step of the specification-level registry content for a fixed id:
a `DeviceConnectionInfo` message for that id replaces the entry with the
(ble-stamped, per §4.E) incoming info, an `OfflineDeviceId` for that id
clears it, and everything else leaves it alone. -/
def specStep (id : String) (acc : Option DeviceConnectionInfo)
    (m : DeviceDiscoveryMessage × Option String) : Option DeviceConnectionInfo :=
  match m.1.content with
  | some (.deviceConnectionInfo info) =>
    match info.device with
    | some d => if d.id = id then some (stampBle info m.2) else acc
    | none => acc
  | some (.offlineDeviceId did) => if did = id then none else acc
  | none => acc

/-- Specification-level registry content after a sequence of messages,
starting from an empty registry: the most recently received connection
info if the most recent message mentioning `id` was a
`DeviceConnectionInfo`, and nothing otherwise. -/
def specLookup (id : String) (ms : List (DeviceDiscoveryMessage × Option String)) :
    Option DeviceConnectionInfo :=
  ms.foldl (specStep id) none

/-- One step of the global-registry content for a fixed id: a
`DeviceConnectionInfo` message for that id replaces the entry with the
(ble-stamped) incoming info, and every other message — including an
`OfflineDeviceId` for that id — leaves it alone, because the
`OfflineDeviceId` branch of `parse_discovery_message` never removes from
the global `DISCOVERED_DEVICES` map. -/
def specStepG (id : String) (acc : Option DeviceConnectionInfo)
    (m : DeviceDiscoveryMessage × Option String) : Option DeviceConnectionInfo :=
  match m.1.content with
  | some (.deviceConnectionInfo info) =>
    match info.device with
    | some d => if d.id = id then some (stampBle info m.2) else acc
    | none => acc
  | _ => acc

/-- Global-registry content after a sequence of messages, starting from
the cleared map: the most recent connection info ever received for `id`,
regardless of later `OfflineDeviceId` messages. -/
def specLookupG (id : String) (ms : List (DeviceDiscoveryMessage × Option String)) :
    Option DeviceConnectionInfo :=
  ms.foldl (specStepG id) none

theorem regLookup_regRemove (r : Registry) (k k' : String) :
    regLookup (regRemove r k) k' = if k' = k then none else regLookup r k' := by
  induction r with
  | nil => simp [regRemove, regLookup]
  | cons e r ih =>
    by_cases hek : e.fst = k
    · simp only [regRemove, if_pos hek]
      rw [ih]
      by_cases hk' : k' = k
      · simp [hk']
      · simp only [if_neg hk', regLookup]
        have : ¬ e.fst = k' := by
          intro h; exact hk' (by rw [← h, hek])
        simp [this]
    · simp only [regRemove, if_neg hek, regLookup]
      by_cases he' : e.fst = k'
      · have hk' : ¬ k' = k := by
          intro h; exact hek (by rw [he', h])
        simp [he', hk']
      · simp only [if_neg he']
        exact ih

theorem regLookup_append (l₁ l₂ : Registry) (k : String) :
    regLookup (l₁ ++ l₂) k =
      match regLookup l₁ k with
      | some v => some v
      | none => regLookup l₂ k := by
  induction l₁ with
  | nil => simp [regLookup]
  | cons e l₁ ih =>
    by_cases he : e.fst = k
    · simp [regLookup, he]
    · simp [regLookup, he, ih]

theorem regLookup_regInsert (r : Registry) (k k' : String) (v : DeviceConnectionInfo) :
    regLookup (regInsert r k v) k' = if k' = k then some v else regLookup r k' := by
  unfold regInsert
  rw [regLookup_append, regLookup_regRemove]
  by_cases h : k' = k
  · simp [h, regLookup]
  · have hne : ¬ k = k' := fun hh => h hh.symm
    simp only [if_neg h]
    cases hr : regLookup r k' with
    | some v' => simp
    | none => simp [regLookup, hne]

theorem lookup_parse_step (st : DiscoveryState) (m : DeviceDiscoveryMessage × Option String)
    (id : String) :
    regLookup (parse_discovery_message st (some m.1) m.2).1.instanceReg id
        = specStep id (regLookup st.instanceReg id) m ∧
    regLookup (parse_discovery_message st (some m.1) m.2).1.globalReg id
        = specStepG id (regLookup st.globalReg id) m := by
  obtain ⟨⟨content⟩, u⟩ := m
  cases content with
  | none => exact ⟨rfl, rfl⟩
  | some c =>
    cases c with
    | deviceConnectionInfo info =>
      cases hd : info.device with
      | none => simp [parse_discovery_message, specStep, specStepG, hd]
      | some d =>
        simp only [parse_discovery_message, specStep, specStepG, hd]
        refine ⟨?_, ?_⟩ <;>
        · rw [regLookup_regInsert]
          by_cases h : id = d.id
          · simp [h]
          · have hne : ¬ d.id = id := fun hh => h hh.symm
            simp [h, hne]
    | offlineDeviceId did =>
      refine ⟨?_, rfl⟩
      simp only [parse_discovery_message, specStep]
      rw [regLookup_regRemove]
      by_cases h : id = did
      · simp [h]
      · have hne : ¬ did = id := fun hh => h hh.symm
        simp [h, hne]

theorem lookup_processAll (ms : List (DeviceDiscoveryMessage × Option String)) (id : String) :
    ∀ st : DiscoveryState,
      regLookup (processAll st ms).instanceReg id
          = ms.foldl (specStep id) (regLookup st.instanceReg id) ∧
      regLookup (processAll st ms).globalReg id
          = ms.foldl (specStepG id) (regLookup st.globalReg id) := by
  induction ms with
  | nil => intro st; exact ⟨rfl, rfl⟩
  | cons m ms ih =>
    intro st
    have hstep := lookup_parse_step st m id
    have hrec := ih (parse_discovery_message st (some m.1) m.2).1
    simp only [processAll, List.foldl_cons]
    rw [← hstep.1, ← hstep.2]
    exact hrec

/-- Claim C2 (amended): after any sequence of well-formed discovery
messages (each decodable, connection-info messages embedding a device)
processed by `parse_discovery_message` starting from the cleared
registries, the per-instance registry contains exactly those device ids
whose most recent message was a `DeviceConnectionInfo`, each mapped to
the most recently received (ble-stamped) connection info; the global
registry read by `get_connection_details`, however, is never pruned by
`OfflineDeviceId` messages — it maps an id to the most recent connection
info ever received for it, even when that id's most recent message was
`OfflineDeviceId`. -/
theorem registry_latest_online_instance_stale_global
    (ms : List (DeviceDiscoveryMessage × Option String))
    (_hwf : ∀ m ∈ ms, wfMessage m.1) (dev : Device) :
    regLookup (processAll ⟨[], []⟩ ms).instanceReg dev.id = specLookup dev.id ms ∧
    get_connection_details (processAll ⟨[], []⟩ ms) dev = specLookupG dev.id ms := by
  have h := lookup_processAll ms dev.id ⟨[], []⟩
  exact ⟨h.1, h.2⟩

def infoA : DeviceConnectionInfo :=
  { device := some ⟨"a", "Alice", some 1⟩, ble := none,
    tcp := some ⟨"10.0.0.1", 4251⟩ }

def infoB : DeviceConnectionInfo :=
  { device := some ⟨"b", "Bob", some 1⟩, ble := none, tcp := none }

def msC2 : List (DeviceDiscoveryMessage × Option String) :=
  [(⟨some (.deviceConnectionInfo infoA)⟩, none),
   (⟨some (.deviceConnectionInfo infoB)⟩, none),
   (⟨some (.offlineDeviceId "b")⟩, none)]

theorem registry_latest_online_instance_stale_global_witness :
    (∀ m ∈ msC2, wfMessage m.1) ∧
    (regLookup (processAll ⟨[], []⟩ msC2).instanceReg "a" = specLookup "a" msC2 ∧
      get_connection_details (processAll ⟨[], []⟩ msC2) ⟨"a", "Alice", some 1⟩
        = specLookupG "a" msC2) ∧
    specLookup "a" msC2 = some infoA ∧ specLookupG "a" msC2 = some infoA ∧
    specLookup "b" msC2 = none ∧ specLookupG "b" msC2 = some infoB :=
  ⟨by decide,
   registry_latest_online_instance_stale_global msC2 (by decide) ⟨"a", "Alice", some 1⟩,
   by decide, by decide, by decide, by decide⟩

def msC2off : List (DeviceDiscoveryMessage × Option String) :=
  [(⟨some (.deviceConnectionInfo infoA)⟩, none),
   (⟨some (.offlineDeviceId "a")⟩, none)]

/-- Claim C2 counterexample: after a well-formed `DeviceConnectionInfo`
for `a` followed by `OfflineDeviceId a`, the id `a`'s most recent message
was `OfflineDeviceId` and the per-instance registry indeed drops it, but
`get_connection_details` still returns the stale connection info: the
`OfflineDeviceId` branch removes only from the per-instance map and never
from the global `DISCOVERED_DEVICES` map, so the registry read by
`get_connection_details` does not contain exactly the devices whose most
recent message was `DeviceConnectionInfo`. -/
theorem get_connection_details_keeps_offline_device :
    (∀ m ∈ msC2off, wfMessage m.1) ∧
    specLookup "a" msC2off = none ∧
    regLookup (processAll ⟨[], []⟩ msC2off).instanceReg "a" = none ∧
    get_connection_details (processAll ⟨[], []⟩ msC2off) ⟨"a", "Alice", some 1⟩
      = some infoA :=
  ⟨by decide, by decide, by decide, by decide⟩

/-- Claim C5 counterexample: starting from an empty registry (the id `x`
is not present), an `OfflineDeviceId x` message still fires the
`device_removed` notification, contradicting the claim that it does not
fire at all when the id was not present. -/
theorem offline_removed_fires_when_absent :
    regLookup (DiscoveryState.mk [] []).instanceReg "x" = none ∧
    (parse_discovery_message ⟨[], []⟩ (some ⟨some (.offlineDeviceId "x")⟩) none).2 =
      [DiscoveryEvent.deviceRemoved "x"] :=
  ⟨rfl, rfl⟩

/-- Claim C5 (amended): for every `OfflineDeviceId` discovery message, the
`device_removed` notification is issued exactly once (to each registered
delegate), regardless of whether the id was previously present in the
registry. -/
theorem offline_message_always_fires_removed (st : DiscoveryState) (did : String)
    (u : Option String) :
    (parse_discovery_message st (some ⟨some (.offlineDeviceId did)⟩) u).2 =
      [DiscoveryEvent.deviceRemoved did] := rfl

/-- Claim C10: an input that does not decode as a `DeviceDiscoveryMessage`,
or decodes with no content, or whose `DeviceConnectionInfo` carries no
embedded device, leaves both registries unchanged and fires no observer
notification. -/
theorem degenerate_message_no_op (st : DiscoveryState) (d : Option DeviceDiscoveryMessage)
    (u : Option String)
    (h : d = none ∨ (∃ m, d = some m ∧ m.content = none) ∨
         (∃ m info, d = some m ∧ m.content = some (.deviceConnectionInfo info) ∧
           info.device = none)) :
    parse_discovery_message st d u = (st, []) := by
  rcases h with h | ⟨m, rfl, hc⟩ | ⟨m, info, rfl, hc, hdv⟩
  · subst h; rfl
  · obtain ⟨content⟩ := m
    cases hc
    rfl
  · obtain ⟨content⟩ := m
    cases hc
    simp [parse_discovery_message, hdv]

theorem degenerate_message_no_op_witness :
    parse_discovery_message (DiscoveryState.mk [(("a" : String), infoA)] []) none none
      = (⟨[("a", infoA)], []⟩, []) ∧
    parse_discovery_message ⟨[], []⟩
      (some ⟨some (.deviceConnectionInfo ⟨none, none, none⟩)⟩) (some "u") = (⟨[], []⟩, []) :=
  ⟨degenerate_message_no_op _ _ _ (Or.inl rfl),
   degenerate_message_no_op _ _ _
     (Or.inr (Or.inr ⟨⟨some (.deviceConnectionInfo ⟨none, none, none⟩)⟩,
       ⟨none, none, none⟩, rfl, rfl, rfl⟩))⟩

/-! ## TAR streamer (`tar.rs`)

Paths are modelled as lists of components.  A declared archive-entry path
is a list of `RComponent` (mirroring `std::path::Component`); a concrete
filesystem path is a `List String` of normal components.  The filesystem
is modelled explicitly: `fs0` is the set of paths existing before the
extraction, and paths created by the extraction are threaded through the
state. -/

inductive RComponent
  | driveC (s : String)
  | rootC
  | curC
  | parentC
  | normalC (s : String)
deriving DecidableEq, Repr

/-- Model of `sanitize_rel_path` (`tar.rs` lines 113-123): keep only the
`Normal` components, dropping `Prefix`, `RootDir`, `CurDir`, `ParentDir`. -/
def sanitize_rel_path (p : List RComponent) : List String :=
  p.filterMap (fun c => match c with | .normalC s => some s | _ => none)

/-- Last-dot split of a file name, mirroring how Rust's `file_stem` and
`extension` cut a name at its final `.`: returns the characters before and
after the final dot, or `none` when there is no dot. -/
def lastDotSplit : List Char → Option (List Char × List Char)
  | [] => none
  | c :: cs =>
    match lastDotSplit cs with
    | some (s, e) => some (c :: s, e)
    | none => if c = '.' then some ([], cs) else none

/-- Rust `file_stem`/`extension` pair of a file name, composed with the
code's `unwrap_or_default`: the second component is `""` when there is no
extension.  A name whose only dot is the leading character (e.g.
`.gitignore`) has no extension and is its own stem. -/
def fileStemExt (name : String) : String × String :=
  match lastDotSplit name.toList with
  | none => (name, "")
  | some ([], _) => (name, "")
  | some (s, e) => (⟨s⟩, ⟨e⟩)

/-- Candidate file name tried by `get_unique_path` at counter `n`:
`"stem (n)"`, with `".ext"` appended when the extension is non-empty
(`tar.rs` lines 46-51). -/
def candidateName (stem ext : String) (n : Nat) : String :=
  if ext = "" then stem ++ " (" ++ toString n ++ ")"
  else stem ++ " (" ++ toString n ++ ")." ++ ext

/-- The unbounded search loop of `get_unique_path`, bounded by `fuel`:
`none` means the Rust loop would still be running after `fuel` candidates. -/
def uniqueLoop (ex : String → Bool) (stem ext : String) : Nat → Nat → Option String
  | 0, _ => none
  | fuel + 1, counter =>
    let newName := candidateName stem ext counter
    if ex newName then uniqueLoop ex stem ext fuel (counter + 1)
    else some newName

/-- Model of `get_unique_path` (`tar.rs` lines 34-61).  Every candidate is
produced with `with_file_name`, so all candidates share the input path's
parent directory; the model therefore works on file names within that
parent, with `ex nm` telling whether a sibling named `nm` exists. -/
def get_unique_path (ex : String → Bool) (name : String) (fuel : Nat) : Option String :=
  if ex name then
    uniqueLoop ex (fileStemExt name).1 (fileStemExt name).2 fuel 1
  else some name

inductive TarEntryType
  | directory
  | regular
  | gnuSparse
  | continuous
  | other
deriving DecidableEq, Repr

def isFileLike : TarEntryType → Bool
  | .regular => true
  | .gnuSparse => true
  | .continuous => true
  | _ => false

structure TarEntry where
  declaredPath : List RComponent
  entryType : TarEntryType
deriving DecidableEq, Repr

/-- One item produced by the archive's entry iterator: a decoded header or
an underlying io failure. -/
inductive FetchItem
  | got (e : TarEntry)
  | ioErr
deriving DecidableEq, Repr

/-- Environment of one `untar_stream` run.  Each loop iteration `i` samples
the shared cancel flag at tick `3*i` (the `ProgressReader` check while the
iterator fetches the header), tick `3*i+1` (the check at the top of the
loop body) and tick `3*i+2` (the `ProgressReader` checks while `unpack`
reads the entry's data).  `unpackOk i` models io success of entry `i`'s
data reads apart from cancellation; filesystem mutation calls are modelled
as succeeding.  `fuel` bounds the unique-name search. -/
structure UntarEnv where
  dest : List String
  items : List FetchItem
  flag : Nat → Bool
  unpackOk : Nat → Bool
  fs0 : List (List String)
  fuel : Nat

structure UntarState where
  restored : List (List String)
  topMap : List (String × List String)
  created : List (List String)
deriving DecidableEq, Repr

/-- All prefixes of a path, used to model `fs::create_dir_all`, which
brings the directory and all its ancestors into existence. -/
def ancestorsOf (p : List String) : List (List String) :=
  (List.range (p.length + 1)).map (fun k => p.take k)

/-- Path-existence check combining the initial filesystem and the paths
created so far during the extraction. -/
def pexists (env : UntarEnv) (st : UntarState) (p : List String) : Bool :=
  env.fs0.contains p || st.created.contains p

/-- Existence of a sibling name directly under the destination directory,
as consulted by the unique-name policy. -/
def exDest (env : UntarEnv) (st : UntarState) : String → Bool :=
  fun nm => pexists env st (env.dest ++ [nm])

def mapLookup : List (String × List String) → String → Option (List String)
  | [], _ => none
  | e :: r, k => if e.fst = k then some e.snd else mapLookup r k

inductive TargetOut
  | target (p : List String) (st : UntarState)
  | fuelOut
deriving Repr

/-- Unique-name step shared by both target branches of `untar_stream`:
`dest.join(root)` if it does not exist, else the `get_unique_path` rename
(`none` when the rename search runs out of fuel). -/
def chooseUnder (env : UntarEnv) (st : UntarState) (root : String) : Option (List String) :=
  if pexists env st (env.dest ++ [root]) then
    (get_unique_path (exDest env st) root env.fuel).map (fun nm => env.dest ++ [nm])
  else some (env.dest ++ [root])

/-- Root-target lookup-or-create on the per-session `top_level_map`
(`tar.rs` lines 185-194). -/
def rootLookup (env : UntarEnv) (st : UntarState) (root : String) :
    Option (List String × UntarState) :=
  match mapLookup st.topMap root with
  | some rt => some (rt, st)
  | none =>
    match chooseUnder env st root with
    | none => none
    | some rt => some (rt, { st with topMap := st.topMap ++ [(root, rt)] })

/-- Target-path computation for one entry (`tar.rs` lines 171-207),
including the `create_dir_all` calls on the target's parent.  `root` and
`sub` are the head and tail of the sanitized path. -/
def computeTarget (env : UntarEnv) (e : TarEntry) (root : String) (sub : List String)
    (st : UntarState) : TargetOut :=
  if sub.isEmpty && isFileLike e.entryType then
    match chooseUnder env st root with
    | none => .fuelOut
    | some filePath =>
      .target filePath { st with created := st.created ++ ancestorsOf env.dest }
  else
    match rootLookup env st root with
    | none => .fuelOut
    | some (rootTarget, st') =>
      .target (if sub.isEmpty then rootTarget else rootTarget ++ sub)
        { st' with created := st'.created ++
            ancestorsOf (if sub.isEmpty then rootTarget else rootTarget ++ sub).dropLast }

inductive StepOut
  | next (st : UntarState)
  | failIo
  | failFuel
deriving Repr

/-- Processing of one successfully fetched entry at loop index `i`
(`tar.rs` lines 156-219): sanitize the declared path, skip when empty,
compute the target, record it in `restored_paths`, then dispatch on the
entry type (mkdir for directories, unpack for file-like entries, ignore
the rest). -/
def processEntry (env : UntarEnv) (i : Nat) (e : TarEntry) (st : UntarState) : StepOut :=
  match sanitize_rel_path e.declaredPath with
  | [] => .next st
  | root :: sub =>
    match computeTarget env e root sub st with
    | .fuelOut => .failFuel
    | .target tp st' =>
      match e.entryType with
      | .directory =>
        .next { st' with restored := st'.restored ++ [tp],
                         created := st'.created ++ ancestorsOf tp }
      | .regular | .gnuSparse | .continuous =>
        if env.flag (3 * i + 2) || !(env.unpackOk i) then .failIo
        else .next { st' with restored := st'.restored ++ [tp],
                              created := st'.created ++ [tp] }
      | _ => .next { st' with restored := st'.restored ++ [tp] }

inductive UResult
  | ok (paths : List (List String))
  | ioError
  | noFuel
deriving DecidableEq, Repr

/-- The entry loop of `untar_stream` (`tar.rs` lines 151-222).  Per
iteration: the iterator fetches the next header (a fetch that the
`ProgressReader` aborts when the cancel flag is set at tick `3*i`); the
loop body then breaks out with the paths restored so far if the flag is
set at tick `3*i+1`; otherwise a fetch failure propagates as an io error
and a fetched entry is processed. -/
def untarGo (env : UntarEnv) : List FetchItem → Nat → UntarState → UResult
  | [], _, st => .ok st.restored
  | .ioErr :: _, i, st =>
    if env.flag (3 * i + 1) then .ok st.restored
    else .ioError
  | .got e :: rest, i, st =>
    if env.flag (3 * i + 1) then .ok st.restored
    else if env.flag (3 * i) then .ioError
    else
      match processEntry env i e st with
      | .next st' => untarGo env rest (i + 1) st'
      | .failIo => .ioError
      | .failFuel => .noFuel

def initUntarState : UntarState := ⟨[], [], []⟩

/-- Model of `untar_stream` (`tar.rs` lines 125-223). -/
def untar_stream (env : UntarEnv) : UResult :=
  untarGo env env.items 0 initUntarState

theorem uniqueLoop_finds (ex : String → Bool) (stem ext : String) :
    ∀ fuel counter, (∃ j, j < fuel ∧ ex (candidateName stem ext (counter + j)) = false) →
    ∃ k, counter ≤ k ∧
      uniqueLoop ex stem ext fuel counter = some (candidateName stem ext k) ∧
      ex (candidateName stem ext k) = false ∧
      ∀ m, counter ≤ m → m < k → ex (candidateName stem ext m) = true := by
  intro fuel
  induction fuel with
  | zero =>
    rintro counter ⟨j, hj, _⟩
    exact absurd hj (Nat.not_lt_zero j)
  | succ fuel ih =>
    rintro counter ⟨j, hj, hex⟩
    cases hc : ex (candidateName stem ext counter) with
    | false =>
      refine ⟨counter, le_refl _, ?_, hc, ?_⟩
      · simp [uniqueLoop, hc]
      · intro m hm1 hm2
        exact absurd (lt_of_le_of_lt hm1 hm2) (lt_irrefl _)
    | true =>
      have hj0 : j ≠ 0 := by
        intro h
        rw [h, Nat.add_zero] at hex
        rw [hc] at hex
        exact absurd hex (by simp)
      obtain ⟨j', rfl⟩ := Nat.exists_eq_succ_of_ne_zero hj0
      have harg : counter + 1 + j' = counter + (j' + 1) := by omega
      have hprem : ∃ j2, j2 < fuel ∧ ex (candidateName stem ext (counter + 1 + j2)) = false := by
        refine ⟨j', by omega, ?_⟩
        rw [harg]
        exact hex
      obtain ⟨k, hk1, hk2, hk3, hk4⟩ := ih (counter + 1) hprem
      refine ⟨k, by omega, ?_, hk3, ?_⟩
      · simpa [uniqueLoop, hc] using hk2
      · intro m hm1 hm2
        rcases Nat.eq_or_lt_of_le hm1 with h | h
        · rw [← h]; exact hc
        · exact hk4 m h hm2

/-- Claim C8: if `P` does not exist, `get_unique_path P` is `P` unchanged;
otherwise (provided a free candidate exists within the search bound, which
on a finite filesystem it always does) it returns the candidate
`"stem (n)"` — extension preserved — for the smallest counter `n ≥ 1` whose
candidate does not exist, and in particular the returned path never names
a pre-existing sibling. -/
theorem get_unique_path_minimal_fresh (ex : String → Bool) (name : String) (fuel : Nat) :
    (ex name = false → get_unique_path ex name fuel = some name) ∧
    (ex name = true →
      (∃ j, 1 ≤ j ∧ j ≤ fuel ∧
        ex (candidateName (fileStemExt name).1 (fileStemExt name).2 j) = false) →
      ∃ k, 1 ≤ k ∧
        get_unique_path ex name fuel
          = some (candidateName (fileStemExt name).1 (fileStemExt name).2 k) ∧
        ex (candidateName (fileStemExt name).1 (fileStemExt name).2 k) = false ∧
        ∀ m, 1 ≤ m → m < k →
          ex (candidateName (fileStemExt name).1 (fileStemExt name).2 m) = true) := by
  constructor
  · intro h
    simp [get_unique_path, h]
  · rintro h ⟨j, hj1, hj2, hj3⟩
    have hprem : ∃ j2, j2 < fuel ∧
        ex (candidateName (fileStemExt name).1 (fileStemExt name).2 (1 + j2)) = false := by
      refine ⟨j - 1, by omega, ?_⟩
      have : 1 + (j - 1) = j := by omega
      rw [this]
      exact hj3
    obtain ⟨k, hk1, hk2, hk3, hk4⟩ :=
      uniqueLoop_finds ex (fileStemExt name).1 (fileStemExt name).2 fuel 1 hprem
    refine ⟨k, hk1, ?_, hk3, hk4⟩
    simp only [get_unique_path, h, if_pos]
    exact hk2

def exC8 : String → Bool := fun nm => nm == "report.pdf" || nm == "report (1).pdf"

theorem get_unique_path_minimal_fresh_witness :
    exC8 "report.pdf" = true ∧
    (∃ j, 1 ≤ j ∧ j ≤ 5 ∧
      exC8 (candidateName (fileStemExt "report.pdf").1 (fileStemExt "report.pdf").2 j)
        = false) ∧
    (∃ k, 1 ≤ k ∧
      get_unique_path exC8 "report.pdf" 5
        = some (candidateName (fileStemExt "report.pdf").1 (fileStemExt "report.pdf").2 k) ∧
      exC8 (candidateName (fileStemExt "report.pdf").1 (fileStemExt "report.pdf").2 k)
        = false ∧
      ∀ m, 1 ≤ m → m < k →
        exC8 (candidateName (fileStemExt "report.pdf").1 (fileStemExt "report.pdf").2 m)
          = true) ∧
    get_unique_path exC8 "report.pdf" 5 = some "report (2).pdf" :=
  ⟨by decide, ⟨2, by decide⟩,
   (get_unique_path_minimal_fresh exC8 "report.pdf" 5).2 (by decide) ⟨2, by decide⟩,
   by decide⟩

def goodPath (dest p : List String) : Prop := ∃ tail, tail ≠ [] ∧ p = dest ++ tail

def goodMap (dest : List String) (tm : List (String × List String)) : Prop :=
  ∀ e ∈ tm, ∃ nm, e.snd = dest ++ [nm]

theorem mapLookup_good {dest : List String} {tm : List (String × List String)}
    (h : goodMap dest tm) {k : String} {rt : List String}
    (hl : mapLookup tm k = some rt) : ∃ nm, rt = dest ++ [nm] := by
  induction tm with
  | nil => simp [mapLookup] at hl
  | cons e tm ih =>
    by_cases he : e.fst = k
    · simp only [mapLookup, if_pos he, Option.some.injEq] at hl
      obtain ⟨nm, hnm⟩ := h e (by simp)
      exact ⟨nm, by rw [← hl]; exact hnm⟩
    · simp only [mapLookup, if_neg he] at hl
      exact ih (fun x hx => h x (by simp [hx])) hl

theorem chooseUnder_shape {env : UntarEnv} {st : UntarState} {root : String}
    {r : List String} (h : chooseUnder env st root = some r) :
    ∃ nm, r = env.dest ++ [nm] := by
  unfold chooseUnder at h
  split at h
  · obtain ⟨nm, _, hr⟩ := Option.map_eq_some'.mp h
    exact ⟨nm, hr.symm⟩
  · exact ⟨root, (Option.some.injEq _ _ ▸ h).symm⟩

theorem rootLookup_shape {env : UntarEnv} {st : UntarState} {root : String}
    {rt : List String} {st' : UntarState} (hm : goodMap env.dest st.topMap)
    (h : rootLookup env st root = some (rt, st')) :
    (∃ nm, rt = env.dest ++ [nm]) ∧ goodMap env.dest st'.topMap ∧
      st'.restored = st.restored := by
  unfold rootLookup at h
  split at h
  · rename_i rt0 hl
    cases h
    exact ⟨mapLookup_good hm hl, hm, rfl⟩
  · split at h
    · cases h
    · rename_i rt0 hc
      cases h
      obtain ⟨nm, hnm⟩ := chooseUnder_shape hc
      refine ⟨⟨nm, hnm⟩, ?_, rfl⟩
      intro x hx
      simp only [List.mem_append, List.mem_singleton] at hx
      rcases hx with hx | hx
      · exact hm x hx
      · exact ⟨nm, by rw [hx]; exact hnm⟩

theorem computeTarget_target {env : UntarEnv} {e : TarEntry} {root : String}
    {sub : List String} {st : UntarState} {tp : List String} {st' : UntarState}
    (hm : goodMap env.dest st.topMap)
    (h : computeTarget env e root sub st = .target tp st') :
    (∃ tail, tail ≠ [] ∧ tp = env.dest ++ tail) ∧ goodMap env.dest st'.topMap ∧
      st'.restored = st.restored := by
  unfold computeTarget at h
  split at h
  · split at h
    · cases h
    · rename_i filePath hc
      cases h
      obtain ⟨nm, hnm⟩ := chooseUnder_shape hc
      exact ⟨⟨[nm], by simp, hnm⟩, hm, rfl⟩
  · split at h
    · cases h
    · rename_i pr hrl
      obtain ⟨rt0, stA⟩ := pr
      cases h
      obtain ⟨⟨nm, hnm⟩, hmA, hresA⟩ := rootLookup_shape hm hrl
      refine ⟨⟨nm :: sub, by simp, ?_⟩, hmA, hresA⟩
      by_cases hs : sub.isEmpty
      · have hsub : sub = [] := by simpa [List.isEmpty_iff] using hs
        simp [hsub, hnm]
      · have hs' : sub.isEmpty = false := by
          cases he : sub.isEmpty
          · rfl
          · exact absurd he hs
        rw [hs']
        simp only [Bool.false_eq_true, if_false]
        rw [hnm, List.append_assoc]
        simp

theorem processEntry_next_good {env : UntarEnv} {i : Nat} {e : TarEntry}
    {st st' : UntarState} (hm : goodMap env.dest st.topMap)
    (hr : ∀ p ∈ st.restored, goodPath env.dest p)
    (h : processEntry env i e st = .next st') :
    goodMap env.dest st'.topMap ∧ (∀ p ∈ st'.restored, goodPath env.dest p) := by
  unfold processEntry at h
  split at h
  · cases h
    exact ⟨hm, hr⟩
  · rename_i root sub _
    split at h
    · cases h
    · rename_i tp stA hct
      obtain ⟨htp, hmA, hresA⟩ := computeTarget_target hm hct
      have hr2 : ∀ p ∈ stA.restored ++ [tp], goodPath env.dest p := by
        intro p hp
        simp only [List.mem_append, List.mem_singleton] at hp
        rcases hp with hp | hp
        · exact hr p (hresA ▸ hp)
        · exact hp ▸ htp
      split at h
      · cases h; exact ⟨hmA, hr2⟩
      · split at h
        · cases h
        · cases h; exact ⟨hmA, hr2⟩
      · split at h
        · cases h
        · cases h; exact ⟨hmA, hr2⟩
      · split at h
        · cases h
        · cases h; exact ⟨hmA, hr2⟩
      · cases h; exact ⟨hmA, hr2⟩

theorem untarGo_good (env : UntarEnv) :
    ∀ (items : List FetchItem) (i : Nat) (st : UntarState) (paths : List (List String)),
    goodMap env.dest st.topMap → (∀ p ∈ st.restored, goodPath env.dest p) →
    untarGo env items i st = .ok paths → ∀ p ∈ paths, goodPath env.dest p := by
  intro items
  induction items with
  | nil =>
    intro i st paths _ hr h
    cases h
    exact hr
  | cons item rest ih =>
    intro i st paths hm hr h
    cases item with
    | ioErr =>
      unfold untarGo at h
      split at h
      · cases h; exact hr
      · cases h
    | got e =>
      unfold untarGo at h
      split at h
      · cases h; exact hr
      · split at h
        · cases h
        · split at h
          · rename_i st' hp
            obtain ⟨hm', hr'⟩ := processEntry_next_good hm hr hp
            exact ih (i + 1) st' paths hm' hr' h
          · cases h
          · cases h

/-- Claim C1: the per-entry target is computed from the sanitized declared
path (only `Normal` components survive), an entry whose sanitized path is
empty is skipped unchanged, and every path recorded by a successful
`untar_stream` run is a strict descendant of the destination directory —
also for declared paths containing `..`, roots, or drive-letter prefixes. -/
theorem untar_targets_descend (env : UntarEnv) :
    (∀ (i : Nat) (e : TarEntry) (st : UntarState),
      sanitize_rel_path e.declaredPath = [] → processEntry env i e st = .next st) ∧
    (∀ paths, untar_stream env = .ok paths →
      ∀ p ∈ paths, ∃ tail, tail ≠ [] ∧ p = env.dest ++ tail) := by
  constructor
  · intro i e st hs
    unfold processEntry
    rw [hs]
  · intro paths h p hp
    exact untarGo_good env env.items 0 initUntarState paths
      (fun x hx => absurd hx (List.not_mem_nil x))
      (fun x hx => absurd hx (List.not_mem_nil x)) h p hp

def entryEvil1 : TarEntry := ⟨[.parentC, .parentC, .normalC "etc", .normalC "passwd"], .regular⟩

def entryEvil2 : TarEntry := ⟨[.rootC, .normalC "etc", .normalC "shadow"], .regular⟩

def entryEvil3 : TarEntry := ⟨[.driveC "C:", .rootC], .directory⟩

def envC1 : UntarEnv :=
  { dest := ["home", "user", "Downloads"],
    items := [.got entryEvil1, .got entryEvil2, .got entryEvil3],
    flag := fun _ => false,
    unpackOk := fun _ => true,
    fs0 := [],
    fuel := 4 }

theorem untar_targets_descend_witness :
    untar_stream envC1 = .ok [["home", "user", "Downloads", "etc", "passwd"],
      ["home", "user", "Downloads", "etc", "shadow"]] ∧
    (∀ p ∈ [["home", "user", "Downloads", "etc", "passwd"],
      ["home", "user", "Downloads", "etc", "shadow"]],
      ∃ tail, tail ≠ [] ∧ p = envC1.dest ++ tail) ∧
    sanitize_rel_path entryEvil3.declaredPath = [] ∧
    processEntry envC1 2 entryEvil3 initUntarState = .next initUntarState :=
  ⟨by decide,
   (untar_targets_descend envC1).2 _ (by decide),
   by decide,
   (untar_targets_descend envC1).1 2 entryEvil3 initUntarState (by decide)⟩

theorem computeTarget_restored {env : UntarEnv} {e : TarEntry} {root : String}
    {sub : List String} {st : UntarState} {tp : List String} {st' : UntarState}
    (h : computeTarget env e root sub st = .target tp st') :
    st'.restored = st.restored := by
  unfold computeTarget at h
  split at h
  · split at h
    · cases h
    · cases h; rfl
  · split at h
    · cases h
    · rename_i pr hrl
      obtain ⟨rt0, stA⟩ := pr
      cases h
      unfold rootLookup at hrl
      split at hrl
      · cases hrl; rfl
      · split at hrl
        · cases hrl
        · cases hrl; rfl

theorem processEntry_next_restored {env : UntarEnv} {i : Nat} {e : TarEntry}
    {st st' : UntarState} (h : processEntry env i e st = .next st') :
    st'.restored = st.restored ∨ ∃ tp, st'.restored = st.restored ++ [tp] := by
  unfold processEntry at h
  split at h
  · cases h
    exact Or.inl rfl
  · split at h
    · cases h
    · rename_i tp stA hct
      have hres := computeTarget_restored hct
      split at h
      · cases h; exact Or.inr ⟨tp, by rw [hres]⟩
      · split at h
        · cases h
        · cases h; exact Or.inr ⟨tp, by rw [hres]⟩
      · split at h
        · cases h
        · cases h; exact Or.inr ⟨tp, by rw [hres]⟩
      · split at h
        · cases h
        · cases h; exact Or.inr ⟨tp, by rw [hres]⟩
      · cases h; exact Or.inr ⟨tp, by rw [hres]⟩

theorem processEntry_next_len {env : UntarEnv} {i : Nat} {e : TarEntry}
    {st st' : UntarState} (h : processEntry env i e st = .next st') :
    st'.restored.length ≤ st.restored.length + 1 := by
  rcases processEntry_next_restored h with h' | ⟨tp, h'⟩
  · rw [h']; omega
  · rw [h']; simp

theorem untarGo_ok_length (env : UntarEnv) :
    ∀ (items : List FetchItem) (i : Nat) (st : UntarState) (paths : List (List String)),
    untarGo env items i st = .ok paths → paths.length ≤ st.restored.length + items.length := by
  intro items
  induction items with
  | nil =>
    intro i st paths h
    cases h
    simp
  | cons item rest ih =>
    intro i st paths h
    cases item with
    | ioErr =>
      unfold untarGo at h
      split at h
      · cases h; simp
      · cases h
    | got e =>
      unfold untarGo at h
      split at h
      · cases h; simp
      · split at h
        · cases h
        · split at h
          · rename_i st' hp
            have h1 := ih (i + 1) st' paths h
            have h2 := processEntry_next_len hp
            simp only [List.length_cons]
            omega
          · cases h
          · cases h

theorem untarGo_cancel_bound (env : UntarEnv) (T : Nat)
    (hmono : ∀ i j, i ≤ j → env.flag i = true → env.flag j = true)
    (hT : env.flag T = true) :
    ∀ (items : List FetchItem) (i : Nat) (st : UntarState) (paths : List (List String)),
    st.restored.length ≤ i → 3 * st.restored.length ≤ T + 1 →
    untarGo env items i st = .ok paths → 3 * paths.length ≤ T + 1 := by
  intro items
  induction items with
  | nil =>
    intro i st paths _ hbd h
    cases h
    exact hbd
  | cons item rest ih =>
    intro i st paths hle hbd h
    cases item with
    | ioErr =>
      unfold untarGo at h
      split at h
      · cases h; exact hbd
      · cases h
    | got e =>
      unfold untarGo at h
      split at h
      · cases h; exact hbd
      · rename_i h1
        split at h
        · cases h
        · split at h
          · rename_i st' hp
            have hlt : 3 * i + 1 < T := by
              by_contra hcon
              push_neg at hcon
              exact h1 (hmono T (3 * i + 1) hcon hT)
            have h2 := processEntry_next_len hp
            exact ih (i + 1) st' paths (by omega) (by omega) h
          · cases h
          · cases h

/-- Claim C4 (amended): on a run whose monotone cancel flag is set at some
tick `T` (and whose unique-name searches terminate), the TAR consumer
stops within one entry of the position where the flag is observed — either
returning successfully the paths restored so far (flag observed at the
between-entries check), a list whose length is at most the number of
entries processed and also bounded by the cancellation tick, or returning
the io error raised when the `ProgressReader` observes the flag inside an
entry. -/
theorem untar_cancel_stops (env : UntarEnv)
    (hmono : ∀ i j, i ≤ j → env.flag i = true → env.flag j = true)
    (T : Nat) (hT : env.flag T = true)
    (hfuel : untar_stream env ≠ .noFuel) :
    (∃ paths, untar_stream env = .ok paths ∧ paths.length ≤ env.items.length ∧
      3 * paths.length ≤ T + 1) ∨
    untar_stream env = .ioError := by
  cases h : untar_stream env with
  | ok paths =>
    left
    refine ⟨paths, rfl, ?_, ?_⟩
    · have := untarGo_ok_length env env.items 0 initUntarState paths h
      simpa [initUntarState] using this
    · exact untarGo_cancel_bound env T hmono hT env.items 0 initUntarState paths
        (by simp [initUntarState]) (by simp [initUntarState]) h
  | ioError => right; rfl
  | noFuel => exact absurd h hfuel

def entryA : TarEntry := ⟨[.normalC "a"], .regular⟩

def envC4 : UntarEnv :=
  { dest := ["d"],
    items := [.got entryA],
    flag := fun t => decide (2 ≤ t),
    unpackOk := fun _ => true,
    fs0 := [],
    fuel := 1 }

/-- Claim C4 counterexample: the cancel flag of `envC4` becomes set at tick
2, during the data reads of the first entry, and `untar_stream` then
returns an io error rather than returning successfully with the restored
paths. -/
theorem untar_cancel_not_successful :
    (∀ i j, i ≤ j → envC4.flag i = true → envC4.flag j = true) ∧
    envC4.flag 2 = true ∧
    untar_stream envC4 = .ioError ∧
    (∀ paths, untar_stream envC4 ≠ .ok paths) := by
  refine ⟨?_, by decide, by decide, ?_⟩
  · intro i j hij hi
    simp only [envC4, decide_eq_true_eq] at hi ⊢
    omega
  · intro paths hok
    rw [show untar_stream envC4 = .ioError from by decide] at hok
    cases hok

def envC4w : UntarEnv :=
  { dest := ["d"],
    items := [.got entryA],
    flag := fun t => decide (1 ≤ t),
    unpackOk := fun _ => true,
    fs0 := [],
    fuel := 1 }

theorem untar_cancel_stops_witness :
    (∃ paths, untar_stream envC4w = .ok paths ∧ paths.length ≤ envC4w.items.length ∧
      3 * paths.length ≤ 1 + 1) ∨
    untar_stream envC4w = .ioError :=
  untar_cancel_stops envC4w
    (fun i j hij hi => by
      simp only [envC4w, decide_eq_true_eq] at hi ⊢
      omega)
    1 (by decide) (by decide)

/-! ## Receiver-side accept (`connection_request.rs`) -/

inductive ReceiveProgressState
  | unknown
  | handshake
  | receiving
  | extracting
  | cancelled
  | finished
deriving DecidableEq, Repr

/-- Outcome of `ConnectionRequest::handle_file`: the value returned to
`accept`, the terminal state reported to the progress observer, and
whether the encrypted stream was closed. -/
structure HandleFileOut where
  returned : Option (List (List String))
  terminal : ReceiveProgressState
  closed : Bool
deriving DecidableEq, Repr

/-- Model of `handle_file` (`connection_request.rs` lines 61-87): on
`Ok(files)` from the TAR consumer emit `Finished`, close, return the
files; on `Err` emit `Cancelled`, close, return nothing.  `none` models
the run in which the unique-name search inside `untar_stream` diverges. -/
def handle_file (env : UntarEnv) : Option HandleFileOut :=
  match untar_stream env with
  | .ok files => some ⟨some files, .finished, true⟩
  | .ioError => some ⟨none, .cancelled, true⟩
  | .noFuel => none

/-- Model of `accept` for a file-transfer intent (`connection_request.rs`
lines 185-210): emit `Handshake`, send `TransferRequestResponse
{accepted:true}`, then run `handle_file`.  Returns the value of `accept`,
the progress states reported (in order), and the stream-closed flag. -/
def accept_file (env : UntarEnv) :
    Option (Option (List (List String)) × List ReceiveProgressState × Bool) :=
  (handle_file env).map (fun o => (o.returned, [ReceiveProgressState.handshake, o.terminal],
    o.closed))

/-- Claim C3 (amended): when the TAR consumer returns an error — which is
how a cancellation observed by the `ProgressReader` inside an entry
surfaces — `accept` reports `Cancelled`, closes the stream, and returns no
path list; when the consumer returns `Ok` — which is what happens when a
requested cancellation is observed at the between-entries check — `accept`
reports `Finished`, closes the stream, and returns the partial path list. -/
theorem accept_file_outcomes (env : UntarEnv) :
    (untar_stream env = .ioError →
      accept_file env =
        some (none, [ReceiveProgressState.handshake, ReceiveProgressState.cancelled], true)) ∧
    (∀ paths, untar_stream env = .ok paths →
      accept_file env =
        some (some paths, [ReceiveProgressState.handshake, ReceiveProgressState.finished],
          true)) := by
  constructor
  · intro h
    simp [accept_file, handle_file, h]
  · intro paths h
    simp [accept_file, handle_file, h]

def envC3err : UntarEnv :=
  { dest := ["d"],
    items := [.ioErr],
    flag := fun _ => false,
    unpackOk := fun _ => true,
    fs0 := [],
    fuel := 1 }

theorem accept_file_outcomes_witness :
    untar_stream envC3err = .ioError ∧
    accept_file envC3err =
      some (none, [ReceiveProgressState.handshake, ReceiveProgressState.cancelled], true) :=
  ⟨by decide, (accept_file_outcomes envC3err).1 (by decide)⟩

def envC3cancel : UntarEnv :=
  { dest := ["d"],
    items := [.got entryA],
    flag := fun _ => true,
    unpackOk := fun _ => true,
    fs0 := [],
    fuel := 1 }

/-- Claim C3 counterexample: with cancellation requested before the first
entry (`flag` is set from tick 0 on), the TAR consumer breaks out with
`Ok`, and `accept` reports `Finished` — not `Cancelled` — while returning
the (here empty) partial list. -/
theorem accept_cancelled_yet_finished :
    envC3cancel.flag 0 = true ∧
    accept_file envC3cancel =
      some (some [], [ReceiveProgressState.handshake, ReceiveProgressState.finished], true) ∧
    (∀ r, accept_file envC3cancel ≠
      some (r, [ReceiveProgressState.handshake, ReceiveProgressState.cancelled], true)) := by
  refine ⟨rfl, by decide, ?_⟩
  intro r h
  rw [show accept_file envC3cancel =
    some (some [], [ReceiveProgressState.handshake, ReceiveProgressState.finished], true)
    from by decide] at h
  simp at h

/-! ## Sender session (`share_store.rs`)

`send_to` dispatches on the payload to `send_text` or `send_files`.  The
environment collects the session fields and the outcomes of the external
effects (connection, response record, ZIP temp-file metadata and reads,
stream writes).  An `f64` progress fraction is represented exactly by its
numerator and denominator (`transferring sent total` stands for the
reported value `sent as f64 / total as f64`; the literals `0.0` and `0.8`
are `transferring 0 1` and `transferring 4 5`). -/

inductive SendProgressState
  | unknown
  | connecting
  | requesting
  | connectionMediumUpdate
  | transferring (sent total : Nat)
  | cancelled
  | finished
  | declined
deriving DecidableEq, Repr

inductive ConnectErrors
  | noTextProvided
  | noFilesProvided
  | connectionError
  | failedToGetTransferRequestResponse
  | declined
deriving DecidableEq, Repr

inductive SendOutcome
  | ok
  | err (e : ConnectErrors)
  | panicked
deriving DecidableEq, Repr

structure FileTransferIntent where
  file_name : Option String
  file_size : Nat
  file_count : Nat
deriving DecidableEq, Repr

/-- One shared path of a Files payload: the Rust `Path::file_name()` of
the path string (`none` for paths such as `..` or `/`), and the file's
size on the filesystem.  The size is used only by the specification-side
comparison `sumFileSizes`; `send_files` itself never reads it. -/
structure SharedPath where
  fileName : Option String
  fsSize : Nat
deriving DecidableEq, Repr

/-- Specification-side quantity named by claim C6: the sum of the payload
files' sizes read from the filesystem. -/
def sumFileSizes (ps : List SharedPath) : Nat := (ps.map (·.fsSize)).sum

structure SendEnv where
  filePaths : Option (List SharedPath)
  clipboard : Option String
  zipPresent : Bool
  tmpPresent : Bool
  connectOk : Bool
  zipSize : Nat
  requestSendOk : Bool
  recvResult : Option Bool
  reopenOk : Bool
  reads : List (Option Nat)
  writeSize : Nat → Option Nat

/-- The `file_name` computation of `send_files` (`share_store.rs` lines
145-152): the final component of the single path when exactly one path is
shared (`.expect("Failed to get file name")` panics when that path has no
final component, modelled as `none`), and absent otherwise. -/
def computeFileName : List SharedPath → Option (Option String)
  | [p] =>
    match p.fileName with
    | some nm => some (some nm)
    | none => none
  | _ => some none

/-- The chunked streaming loop of `send_files` (`share_store.rs` lines
193-208): read from the reopened ZIP temp file until a read error, a
zero-length read, or a zero-length write; a write error panics
(`.expect("Failed to write file buffer")`), modelled as first component
`none`.  Returns the final `all_written` and the `Transferring` progress
reports. -/
def sendLoop (env : SendEnv) : List (Option Nat) → Nat → Nat →
    Option Nat × List SendProgressState
  | [], _, acc => (some acc, [])
  | r :: rest, i, acc =>
    match r with
    | none => (some acc, [])
    | some 0 => (some acc, [])
    | some _ =>
      match env.writeSize i with
      | none => (none, [])
      | some 0 => (some acc, [])
      | some w =>
        match sendLoop env rest (i + 1) (acc + w) with
        | (fin, evs) =>
          (fin, SendProgressState.transferring (acc + w) env.zipSize :: evs)

/-- Model of `ShareStore::send_files` (`share_store.rs` lines 116-219).
Returns the outcome, the progress states reported in order, and the
`FileTransfer` intent of the Request record sent (when one was sent).
The result of writing the Request record is discarded by the code
(`let _ = proto_stream.send(&transfer_request)`), so `env.requestSendOk`
is deliberately never consulted. -/
def send_files (env : SendEnv) :
    SendOutcome × List SendProgressState × Option FileTransferIntent :=
  match env.filePaths with
  | none => (.err .noFilesProvided, [], none)
  | some ps =>
    if !env.zipPresent then (.err .noFilesProvided, [], none)
    else if !env.tmpPresent then (.err .noFilesProvided, [], none)
    else if !env.connectOk then
      (.err .connectionError, [.connecting, .unknown], none)
    else
      match computeFileName ps with
      | none => (.panicked, [.connecting, .requesting], none)
      | some fname =>
        match env.recvResult with
        | none =>
          (.err .failedToGetTransferRequestResponse, [.connecting, .requesting],
            some ⟨fname, env.zipSize, ps.length⟩)
        | some false =>
          (.err .declined, [.connecting, .requesting, .declined],
            some ⟨fname, env.zipSize, ps.length⟩)
        | some true =>
          if !env.reopenOk then
            (.err .noFilesProvided, [.connecting, .requesting, .transferring 0 1],
              some ⟨fname, env.zipSize, ps.length⟩)
          else
            match sendLoop env env.reads 0 0 with
            | (none, evs) =>
              (.panicked, [.connecting, .requesting, .transferring 0 1] ++ evs,
                some ⟨fname, env.zipSize, ps.length⟩)
            | (some allWritten, evs) =>
              if allWritten < env.zipSize then
                (.ok, ([.connecting, .requesting, .transferring 0 1] ++ evs) ++ [.cancelled],
                  some ⟨fname, env.zipSize, ps.length⟩)
              else
                (.ok, ([.connecting, .requesting, .transferring 0 1] ++ evs) ++ [.finished],
                  some ⟨fname, env.zipSize, ps.length⟩)

/-- Model of `ShareStore::send_text` (`share_store.rs` lines 79-114).  The
result of writing the Request record is discarded
(`let _ = proto_stream.send(&transfer_request)`), so the function reports
`Finished` and returns `Ok` whether or not that write succeeded. -/
def send_text (env : SendEnv) : SendOutcome × List SendProgressState :=
  match env.clipboard with
  | none => (.err .noTextProvided, [])
  | some _ =>
    if !env.connectOk then (.err .connectionError, [.connecting, .unknown])
    else
      (.ok, [.connecting, .transferring 0 1, .transferring 4 5, .finished])

/-- Model of `ShareStore::send_to` (`share_store.rs` lines 71-77). -/
def send_to (env : SendEnv) : SendOutcome × List SendProgressState :=
  if env.filePaths.isNone then send_text env
  else ((send_files env).1, (send_files env).2.1)

/-- Claim C6 (amended): every `send_files` run that reaches the request
step sends a Request whose `FileTransfer` intent has `file_name` equal to
the final path component when exactly one path is shared and absent
otherwise, `file_count` equal to the number of shared paths, and
`file_size` equal to the size of the prepared ZIP temp file read from its
metadata — not the sum of the payload files' sizes. -/
theorem send_files_request_fields (env : SendEnv) (ps : List SharedPath)
    (hps : env.filePaths = some ps) (hz : env.zipPresent = true)
    (ht : env.tmpPresent = true) (hc : env.connectOk = true)
    (fn : Option String) (hfn : computeFileName ps = some fn) :
    (send_files env).2.2 = some ⟨fn, env.zipSize, ps.length⟩ ∧
    (∀ p nm, ps = [p] → p.fileName = some nm → fn = some nm) ∧
    (ps.length ≠ 1 → fn = none) := by
  refine ⟨?_, ?_, ?_⟩
  · simp only [send_files, hps, hz, ht, hc, Bool.not_true, Bool.false_eq_true, if_false]
    rw [hfn]
    cases hr : env.recvResult with
    | none => rfl
    | some b =>
      cases b with
      | false => rfl
      | true =>
        cases hro : env.reopenOk with
        | false => rfl
        | true =>
          simp only [Bool.not_true, Bool.false_eq_true, if_false]
          cases hsl : sendLoop env env.reads 0 0 with
          | mk fin evs =>
            cases fin with
            | none => rfl
            | some allWritten =>
              by_cases hw : allWritten < env.zipSize <;> simp [hw]
  · intro p nm hp hnm
    subst hp
    simp only [computeFileName, hnm, Option.some.injEq] at hfn
    exact hfn.symm
  · intro hlen
    match ps, hfn with
    | [], hfn => exact (Option.some.injEq _ _ ▸ hfn).symm
    | [p], hfn => exact absurd rfl hlen
    | p :: q :: rest, hfn => exact (Option.some.injEq _ _ ▸ hfn).symm

def pathA : SharedPath := ⟨some "a.bin", 10⟩

def envC6 : SendEnv :=
  { filePaths := some [pathA], clipboard := none, zipPresent := true, tmpPresent := true,
    connectOk := true, zipSize := 52, requestSendOk := true, recvResult := some true,
    reopenOk := true, reads := [some 52], writeSize := fun _ => some 52 }

theorem send_files_request_fields_witness :
    (send_files envC6).2.2 = some ⟨some "a.bin", envC6.zipSize, 1⟩ ∧
    (∀ p nm, [pathA] = [p] → p.fileName = some nm → (some "a.bin" : Option String) = some nm) ∧
    ((1 : Nat) ≠ 1 → (some "a.bin" : Option String) = none) :=
  send_files_request_fields envC6 [pathA] rfl rfl rfl rfl (some "a.bin") rfl

/-- Claim C6 counterexample: for a single shared file of filesystem size
10 whose prepared ZIP temp file has size 52, the Request's `file_size` is
52 — the ZIP's metadata length — and not the sum of the payload files'
sizes, refuting the claim that `file_size` equals that sum. -/
theorem send_files_size_not_sum :
    (send_files envC6).2.2 = some ⟨some "a.bin", 52, 1⟩ ∧
    sumFileSizes [pathA] = 10 ∧
    (∀ r, (send_files envC6).2.2 = some r → r.file_size ≠ sumFileSizes [pathA]) := by
  refine ⟨by decide, by decide, ?_⟩
  intro r hr hsz
  rw [show (send_files envC6).2.2 = some ⟨some "a.bin", 52, 1⟩ from by decide] at hr
  cases hr
  simp [sumFileSizes, pathA] at hsz

/-- Claim C7 (amended): in `send_files`, when the `TransferRequestResponse`
cannot be received — as happens when writing the Request record broke the
channel — the error propagates to the caller as
`FailedToGetTransferRequestResponse` and no `Finished` state is reported;
`send_text`, by contrast, discards the result of writing the Request
record and reports `Finished` regardless. -/
theorem send_files_no_finished_without_response (env : SendEnv) (ps : List SharedPath)
    (hps : env.filePaths = some ps) (hz : env.zipPresent = true)
    (ht : env.tmpPresent = true) (hc : env.connectOk = true)
    (fn : Option String) (hfn : computeFileName ps = some fn)
    (hr : env.recvResult = none) :
    (send_files env).1 = .err .failedToGetTransferRequestResponse ∧
    SendProgressState.finished ∉ (send_files env).2.1 := by
  have hval : send_files env =
      (.err .failedToGetTransferRequestResponse, [.connecting, .requesting],
        some ⟨fn, env.zipSize, ps.length⟩) := by
    simp only [send_files, hps, hz, ht, hc, Bool.not_true, Bool.false_eq_true, if_false]
    rw [hfn, hr]
  rw [hval]
  exact ⟨rfl, by simp⟩

def envC7files : SendEnv :=
  { filePaths := some [pathA], clipboard := none, zipPresent := true, tmpPresent := true,
    connectOk := true, zipSize := 52, requestSendOk := false, recvResult := none,
    reopenOk := true, reads := [], writeSize := fun _ => some 0 }

theorem send_files_no_finished_without_response_witness :
    (send_files envC7files).1 = .err .failedToGetTransferRequestResponse ∧
    SendProgressState.finished ∉ (send_files envC7files).2.1 :=
  send_files_no_finished_without_response envC7files [pathA] rfl rfl rfl rfl
    (some "a.bin") rfl rfl

def envC7text : SendEnv :=
  { filePaths := none, clipboard := some "hello", zipPresent := false, tmpPresent := false,
    connectOk := true, zipSize := 0, requestSendOk := false, recvResult := none,
    reopenOk := false, reads := [], writeSize := fun _ => none }

/-- Claim C7 counterexample: a `send_to` run with a Text payload in which
writing the Request record to the encrypted stream fails
(`requestSendOk = false`) still returns `Ok` and still reports `Finished`:
the write error neither propagates nor prevents the `Finished` state. -/
theorem send_text_finished_despite_write_error :
    envC7text.requestSendOk = false ∧
    send_to envC7text =
      (.ok, [.connecting, .transferring 0 1, .transferring 4 5, .finished]) ∧
    SendProgressState.finished ∈ (send_to envC7text).2 :=
  ⟨rfl, by decide, by decide⟩

/-! ## Convenience link (`share_store.rs` `generate_link`,
`nearby_server.rs` `request_download`)

Link strings are modelled as `List Char`.  The URL parser models the
behaviour of `Url::parse` / `query_pairs` on the links this code builds:
the host is what follows `https://` up to the first `/`, `?` or `#`; the
query is what follows the first `?` up to a `#`; query pairs split on `&`
and each pair at its first `=`.  Percent-encoding never fires on the
URL-plain character set assumed below, so it is not modelled. -/

/-- Decimal digit rendering of a natural number, mirroring Rust's decimal
`Display`; the recursion is bounded by `fuel`. -/
def natToDigitsAux : Nat → Nat → List Char
  | 0, _ => []
  | fuel + 1, n =>
    if n < 10 then [Nat.digitChar n]
    else natToDigitsAux fuel (n / 10) ++ [Nat.digitChar (n % 10)]

def natToDecimal (n : Nat) : List Char := natToDigitsAux (n + 1) n

def digitVal (c : Char) : Option Nat :=
  if 48 ≤ c.toNat ∧ c.toNat ≤ 57 then some (c.toNat - 48) else none

def decimalToNatAux : List Char → Nat → Option Nat
  | [], acc => some acc
  | c :: cs, acc =>
    match digitVal c with
    | none => none
    | some d => decimalToNatAux cs (acc * 10 + d)

/-- Model of Rust's `str::parse::<u32>` restricted to plain digit strings
(the code only ever feeds it query values): rejects the empty string,
non-digits, and values outside `u32`. -/
def parseU32 (cs : List Char) : Option Nat :=
  if cs = [] then none
  else
    match decimalToNatAux cs 0 with
    | none => none
    | some n => if n < 2 ^ 32 then some n else none

/-- Host part of a `https://...` link: the characters after the scheme up
to the first `/`, `?` or `#`. -/
def hostOf (cs : List Char) : Option (List Char) :=
  if cs.take 8 = "https://".data then
    some ((cs.drop 8).takeWhile (fun c => !(c == '/') && !(c == '?') && !(c == '#')))
  else none

/-- Query part of a link: everything after the first `?` up to a `#`. -/
def queryOf (cs : List Char) : List Char :=
  ((cs.dropWhile (fun c => !(c == '?'))).drop 1).takeWhile (fun c => !(c == '#'))

/-- Split a character list on a separator (keeping empty pieces), as
`form_urlencoded` splits a query on `&`. -/
def splitSep (sep : Char) : List Char → List (List Char)
  | [] => [[]]
  | c :: cs =>
    if c = sep then [] :: splitSep sep cs
    else
      match splitSep sep cs with
      | [] => [[c]]
      | p :: ps => (c :: p) :: ps

/-- Split one `key=value` piece at its first `=` (value empty when there
is no `=`). -/
def pairOf (piece : List Char) : List Char × List Char :=
  (piece.takeWhile (fun c => !(c == '=')),
   (piece.dropWhile (fun c => !(c == '='))).drop 1)

/-- First query pair with the wanted key, as
`query_pairs().find(|(key, _)| key == k)`. -/
def findKey : List (List Char × List Char) → List Char → Option (List Char)
  | [], _ => none
  | p :: ps, k => if p.1 = k then some p.2 else findKey ps k

inductive RequestDownloadOutcome
  | notAValidLink
  | parsed (shareId hostname : List Char) (port : Nat)
deriving DecidableEq, Repr

/-- Model of the link validation of `request_download` (`nearby_server.rs`
lines 177-260), written as a chain of stages mirroring the early-return
`?`/`ok_or` chain of the source: parse the URL, require host
`s.intershare.app`, then the query keys `i`, `ip`, `p`, each present with
a non-empty value, `p` parsing as a `u32`.  On success the call dials
`ip:p` and sends a `ConvenienceDownloadRequest` with `share_id = i`; the
model returns those three recovered values. -/
def rdStage3 (i ip pstr : List Char) : RequestDownloadOutcome :=
  if pstr = [] then .notAValidLink
  else
    match parseU32 pstr with
    | none => .notAValidLink
    | some port => .parsed i ip port

def rdStage2 (i ip : List Char) (pairs : List (List Char × List Char)) :
    RequestDownloadOutcome :=
  if ip = [] then .notAValidLink
  else
    match findKey pairs "p".data with
    | none => .notAValidLink
    | some pstr => rdStage3 i ip pstr

def rdStage1 (i : List Char) (pairs : List (List Char × List Char)) :
    RequestDownloadOutcome :=
  if i = [] then .notAValidLink
  else
    match findKey pairs "ip".data with
    | none => .notAValidLink
    | some ip => rdStage2 i ip pairs

def rdStage0 (h : List Char) (pairs : List (List Char × List Char)) :
    RequestDownloadOutcome :=
  if h ≠ "s.intershare.app".data then .notAValidLink
  else
    match findKey pairs "i".data with
    | none => .notAValidLink
    | some i => rdStage1 i pairs

def request_download (link : List Char) : RequestDownloadOutcome :=
  match hostOf link with
  | none => .notAValidLink
  | some h => rdStage0 h ((splitSep '&' (queryOf link)).map pairOf)

/-- The `ShareStore` fields consulted by `generate_link`. -/
structure ShareStoreM where
  request_id : String
  allow_convenience_share : Bool
  device_connection_info : DeviceConnectionInfo

/-- Model of `ShareStore::generate_link` (`share_store.rs` lines 231-255):
`none` unless convenience sharing is allowed and the connection info has
a device and TCP coordinates; otherwise the rendered
`https://s.intershare.app?i={request_id}&ip={ip}&p={port}&d={device_id}`. -/
def generate_link (s : ShareStoreM) : Option (List Char) :=
  if !s.allow_convenience_share then none
  else
    match s.device_connection_info.device with
    | none => none
    | some device =>
      match s.device_connection_info.tcp with
      | none => none
      | some tcp =>
        some ("https://s.intershare.app?i=".data ++ s.request_id.data
          ++ "&ip=".data ++ tcp.hostname.data
          ++ "&p=".data ++ natToDecimal tcp.port
          ++ "&d=".data ++ device.id.data)

/-- Characters that survive a URL query verbatim: not separators of the
URL syntax and not percent-encoded by the `url` crate in a query. -/
def urlPlain (c : Char) : Bool :=
  c.isAlphanum || c == '.' || c == '-' || c == '_' || c == '~' || c == ':'

theorem takeWhile_of_all {α} (p : α → Bool) :
    ∀ xs : List α, (∀ c ∈ xs, p c = true) → xs.takeWhile p = xs := by
  intro xs h
  induction xs with
  | nil => rfl
  | cons x xs ih =>
    rw [List.takeWhile_cons, h x (by simp), if_pos rfl,
        ih (fun c hc => h c (by simp [hc]))]

theorem takeWhile_stop_append {α} (p : α → Bool) (ks : List α) (a : α) (vs : List α)
    (hks : ∀ c ∈ ks, p c = true) (ha : p a = false) :
    (ks ++ a :: vs).takeWhile p = ks := by
  induction ks with
  | nil => simp [List.takeWhile_cons, ha]
  | cons k ks ih =>
    rw [List.cons_append, List.takeWhile_cons, hks k (by simp), if_pos rfl,
        ih (fun c hc => hks c (by simp [hc]))]

theorem dropWhile_stop_append {α} (p : α → Bool) (ks : List α) (a : α) (vs : List α)
    (hks : ∀ c ∈ ks, p c = true) (ha : p a = false) :
    (ks ++ a :: vs).dropWhile p = a :: vs := by
  induction ks with
  | nil => simp [List.dropWhile_cons, ha]
  | cons k ks ih =>
    rw [List.cons_append, List.dropWhile_cons, hks k (by simp), if_pos rfl,
        ih (fun c hc => hks c (by simp [hc]))]

theorem splitSep_no (sep : Char) :
    ∀ xs : List Char, (∀ c ∈ xs, c ≠ sep) → splitSep sep xs = [xs] := by
  intro xs h
  induction xs with
  | nil => rfl
  | cons x xs ih =>
    have hx : ¬ x = sep := h x (by simp)
    rw [splitSep, if_neg hx, ih (fun c hc => h c (by simp [hc]))]

theorem splitSep_cons_append (sep : Char) (xs ys : List Char)
    (h : ∀ c ∈ xs, c ≠ sep) :
    splitSep sep (xs ++ sep :: ys) = xs :: splitSep sep ys := by
  induction xs with
  | nil =>
    rw [List.nil_append, splitSep, if_pos rfl]
  | cons x xs ih =>
    have hx : ¬ x = sep := h x (by simp)
    rw [List.cons_append, splitSep, if_neg hx, ih (fun c hc => h c (by simp [hc]))]

theorem pairOf_shape (ks : List Char) (vs : List Char)
    (hks : ∀ c ∈ ks, (!(c == '=')) = true) :
    pairOf (ks ++ '=' :: vs) = (ks, vs) := by
  unfold pairOf
  rw [takeWhile_stop_append _ ks '=' vs hks (by decide),
      dropWhile_stop_append _ ks '=' vs hks (by decide)]
  rfl

theorem dec_append (xs : List Char) :
    ∀ (ys : List Char) (acc m : Nat), decimalToNatAux xs acc = some m →
      decimalToNatAux (xs ++ ys) acc = decimalToNatAux ys m := by
  induction xs with
  | nil =>
    intro ys acc m h
    cases h
    rfl
  | cons c cs ih =>
    intro ys acc m h
    rw [List.cons_append, decimalToNatAux]
    unfold decimalToNatAux at h
    cases hd : digitVal c with
    | none => rw [hd] at h; cases h
    | some d =>
      rw [hd] at h
      exact ih ys (acc * 10 + d) m h

theorem digitVal_digitChar (n : Nat) (h : n < 10) :
    digitVal (Nat.digitChar n) = some n := by
  interval_cases n <;> decide

theorem isDigit_digitChar (n : Nat) (h : n < 10) :
    (Nat.digitChar n).isDigit = true := by
  interval_cases n <;> decide

theorem natToDigitsAux_ok : ∀ (fuel n : Nat), n < fuel →
    natToDigitsAux fuel n ≠ [] ∧
    (∀ c ∈ natToDigitsAux fuel n, c.isDigit = true) ∧
    ∀ acc, decimalToNatAux (natToDigitsAux fuel n) acc
        = some (acc * 10 ^ (natToDigitsAux fuel n).length + n) := by
  intro fuel
  induction fuel with
  | zero => intro n hn; exact absurd hn (Nat.not_lt_zero n)
  | succ fuel ih =>
    intro n hn
    by_cases h10 : n < 10
    · rw [natToDigitsAux, if_pos h10]
      refine ⟨by simp, ?_, ?_⟩
      · intro c hc
        simp only [List.mem_singleton] at hc
        rw [hc]
        exact isDigit_digitChar n h10
      · intro acc
        simp only [decimalToNatAux, digitVal_digitChar n h10]
        simp [pow_succ]
    · rw [natToDigitsAux, if_neg h10]
      have hdiv : n / 10 < fuel := by
        have h1 : n / 10 < n := Nat.div_lt_self (by omega) (by omega)
        omega
      obtain ⟨hne, hdig, hparse⟩ := ih (n / 10) hdiv
      have hmod : n % 10 < 10 := Nat.mod_lt _ (by omega)
      refine ⟨by simp, ?_, ?_⟩
      · intro c hc
        simp only [List.mem_append, List.mem_singleton] at hc
        rcases hc with hc | hc
        · exact hdig c hc
        · rw [hc]; exact isDigit_digitChar _ hmod
      · intro acc
        rw [dec_append _ _ acc _ (hparse acc)]
        simp only [decimalToNatAux, digitVal_digitChar _ hmod]
        rw [List.length_append, List.length_singleton]
        congr 1
        rw [pow_succ]
        have h1 : (acc * 10 ^ (natToDigitsAux fuel (n / 10)).length + n / 10) * 10 + n % 10
            = acc * 10 ^ (natToDigitsAux fuel (n / 10)).length * 10
              + (n / 10 * 10 + n % 10) := by ring
        have h2 : n / 10 * 10 + n % 10 = n := by omega
        rw [h1, h2]
        ring

theorem natToDecimal_ne_nil (n : Nat) : natToDecimal n ≠ [] :=
  (natToDigitsAux_ok (n + 1) n (Nat.lt_succ_self n)).1

theorem natToDecimal_digits (n : Nat) : ∀ c ∈ natToDecimal n, c.isDigit = true :=
  (natToDigitsAux_ok (n + 1) n (Nat.lt_succ_self n)).2.1

theorem parseU32_natToDecimal (n : Nat) (h : n < 2 ^ 32) :
    parseU32 (natToDecimal n) = some n := by
  have hp' : decimalToNatAux (natToDecimal n) 0 = some n := by
    have hp := (natToDigitsAux_ok (n + 1) n (Nat.lt_succ_self n)).2.2 0
    unfold natToDecimal
    rw [hp, Nat.zero_mul, Nat.zero_add]
  unfold parseU32
  rw [if_neg (natToDecimal_ne_nil n)]
  simp only [hp']
  rw [if_pos h]

theorem urlPlain_beq_false {c : Char} (h : urlPlain c = true) {d : Char}
    (hd : urlPlain d = false) : (c == d) = false := by
  cases hcd : c == d
  · rfl
  · have : c = d := by
      have := (beq_iff_eq (a := c) (b := d)).mp hcd
      exact this
    rw [this] at h
    rw [h] at hd
    cases hd

theorem isDigit_urlPlain {c : Char} (h : c.isDigit = true) : urlPlain c = true := by
  have : c.isAlphanum = true := by
    unfold Char.isAlphanum
    rw [h]
    simp
  simp [urlPlain, this]

theorem urlPlain_ne_amp {c : Char} (h : urlPlain c = true) : c ≠ '&' := by
  intro heq
  rw [heq] at h
  exact absurd h (by decide)

theorem urlPlain_not_hash {c : Char} (h : urlPlain c = true) : (!(c == '#')) = true := by
  rw [urlPlain_beq_false h (by decide)]
  rfl

theorem hostOf_render (sym : List Char) :
    hostOf ("https://s.intershare.app?i=".data ++ sym) = some "s.intershare.app".data := by
  unfold hostOf
  rw [List.take_append_of_le_length (by decide), if_pos (by decide)]
  rw [List.drop_append_of_le_length (by decide)]
  have h1 : List.drop 8 "https://s.intershare.app?i=".data
      = "s.intershare.app".data ++ '?' :: "i=".data := by decide
  rw [h1]
  have h3 : ("s.intershare.app".data ++ '?' :: "i=".data) ++ sym
      = "s.intershare.app".data ++ '?' :: ("i=".data ++ sym) := by
    rw [List.append_assoc]
    rfl
  rw [h3]
  rw [takeWhile_stop_append (fun c => !(c == '/') && !(c == '?') && !(c == '#'))
    "s.intershare.app".data '?' ("i=".data ++ sym) (by decide) (by decide)]

theorem queryOf_render (sym : List Char) (hsym : ∀ c ∈ sym, (!(c == '#')) = true) :
    queryOf ("https://s.intershare.app?i=".data ++ sym) = "i=".data ++ sym := by
  unfold queryOf
  have h2 : "https://s.intershare.app?i=".data ++ sym
      = "https://s.intershare.app".data ++ '?' :: ("i=".data ++ sym) := by
    have h0 : "https://s.intershare.app?i=".data
        = "https://s.intershare.app".data ++ '?' :: "i=".data := by decide
    rw [h0, List.append_assoc]
    rfl
  rw [h2]
  rw [dropWhile_stop_append (fun c => !(c == '?')) "https://s.intershare.app".data '?'
    ("i=".data ++ sym) (by decide) (by decide)]
  rw [List.drop_succ_cons, List.drop_zero]
  apply takeWhile_of_all
  intro c hc
  simp only [List.mem_append] at hc
  rcases hc with hc | hc
  · exact (by decide : ∀ x ∈ "i=".data, (!(x == '#')) = true) c hc
  · exact hsym c hc

/-- Round-trip of the rendered convenience link through the
`request_download` validation, for URL-plain payload strings. -/
theorem request_download_render (rid host did : List Char) (port : Nat)
    (hrid0 : rid ≠ []) (hrid : ∀ c ∈ rid, urlPlain c = true)
    (hhost0 : host ≠ []) (hhost : ∀ c ∈ host, urlPlain c = true)
    (hdid : ∀ c ∈ did, urlPlain c = true)
    (hport : port < 2 ^ 32) :
    request_download ("https://s.intershare.app?i=".data ++ rid ++ "&ip=".data ++ host
      ++ "&p=".data ++ natToDecimal port ++ "&d=".data ++ did)
      = .parsed rid host port := by
  have hdigp : ∀ c ∈ natToDecimal port, urlPlain c = true :=
    fun c hc => isDigit_urlPlain (natToDecimal_digits port c hc)
  have hassoc : "https://s.intershare.app?i=".data ++ rid ++ "&ip=".data ++ host
      ++ "&p=".data ++ natToDecimal port ++ "&d=".data ++ did
      = "https://s.intershare.app?i=".data ++ (rid ++ ("&ip=".data ++ (host
        ++ ("&p=".data ++ (natToDecimal port ++ ("&d=".data ++ did)))))) := by
    simp [List.append_assoc]
  rw [hassoc]
  have hsym : ∀ c ∈ rid ++ ("&ip=".data ++ (host ++ ("&p=".data ++ (natToDecimal port
      ++ ("&d=".data ++ did))))), (!(c == '#')) = true := by
    intro c hc
    simp only [List.mem_append] at hc
    rcases hc with hc | hc | hc | hc | hc | hc
    · exact urlPlain_not_hash (hrid c hc)
    · exact (by decide : ∀ x ∈ "&ip=".data, (!(x == '#')) = true) c hc
    · exact urlPlain_not_hash (hhost c hc)
    · exact (by decide : ∀ x ∈ "&p=".data, (!(x == '#')) = true) c hc
    · exact urlPlain_not_hash (hdigp c hc)
    · rcases hc with hc | hc
      · exact (by decide : ∀ x ∈ "&d=".data, (!(x == '#')) = true) c hc
      · exact urlPlain_not_hash (hdid c hc)
  have hqueryOf := queryOf_render _ hsym
  have hqform : "i=".data ++ (rid ++ ("&ip=".data ++ (host
        ++ ("&p=".data ++ (natToDecimal port ++ ("&d=".data ++ did))))))
      = ("i=".data ++ rid) ++ '&' :: (("ip=".data ++ host)
        ++ '&' :: (("p=".data ++ natToDecimal port) ++ '&' :: ("d=".data ++ did))) := by
    have e1 : "&ip=".data = '&' :: "ip=".data := rfl
    have e2 : "&p=".data = '&' :: "p=".data := rfl
    have e3 : "&d=".data = '&' :: "d=".data := rfl
    rw [e1, e2, e3]
    simp [List.append_assoc]
  have hno_i : ∀ c ∈ "i=".data ++ rid, c ≠ '&' := by
    intro c hc
    simp only [List.mem_append] at hc
    rcases hc with hc | hc
    · exact (by decide : ∀ x ∈ "i=".data, x ≠ '&') c hc
    · exact urlPlain_ne_amp (hrid c hc)
  have hno_ip : ∀ c ∈ "ip=".data ++ host, c ≠ '&' := by
    intro c hc
    simp only [List.mem_append] at hc
    rcases hc with hc | hc
    · exact (by decide : ∀ x ∈ "ip=".data, x ≠ '&') c hc
    · exact urlPlain_ne_amp (hhost c hc)
  have hno_p : ∀ c ∈ "p=".data ++ natToDecimal port, c ≠ '&' := by
    intro c hc
    simp only [List.mem_append] at hc
    rcases hc with hc | hc
    · exact (by decide : ∀ x ∈ "p=".data, x ≠ '&') c hc
    · exact urlPlain_ne_amp (hdigp c hc)
  have hno_d : ∀ c ∈ "d=".data ++ did, c ≠ '&' := by
    intro c hc
    simp only [List.mem_append] at hc
    rcases hc with hc | hc
    · exact (by decide : ∀ x ∈ "d=".data, x ≠ '&') c hc
    · exact urlPlain_ne_amp (hdid c hc)
  have hsplit : splitSep '&' (("i=".data ++ rid) ++ '&' :: (("ip=".data ++ host)
        ++ '&' :: (("p=".data ++ natToDecimal port) ++ '&' :: ("d=".data ++ did))))
      = [("i=".data ++ rid), ("ip=".data ++ host), ("p=".data ++ natToDecimal port),
         ("d=".data ++ did)] := by
    rw [splitSep_cons_append '&' _ _ hno_i, splitSep_cons_append '&' _ _ hno_ip,
        splitSep_cons_append '&' _ _ hno_p, splitSep_no '&' _ hno_d]
  have p1 : pairOf ("i=".data ++ rid) = ("i".data, rid) := by
    have h : "i=".data ++ rid = "i".data ++ '=' :: rid := rfl
    rw [h, pairOf_shape _ _ (by decide)]
  have p2 : pairOf ("ip=".data ++ host) = ("ip".data, host) := by
    have h : "ip=".data ++ host = "ip".data ++ '=' :: host := rfl
    rw [h, pairOf_shape _ _ (by decide)]
  have p3 : pairOf ("p=".data ++ natToDecimal port) = ("p".data, natToDecimal port) := by
    have h : "p=".data ++ natToDecimal port = "p".data ++ '=' :: natToDecimal port := rfl
    rw [h, pairOf_shape _ _ (by decide)]
  have p4 : pairOf ("d=".data ++ did) = ("d".data, did) := by
    have h : "d=".data ++ did = "d".data ++ '=' :: did := rfl
    rw [h, pairOf_shape _ _ (by decide)]
  have hpairs : (splitSep '&' (queryOf ("https://s.intershare.app?i=".data ++ (rid
        ++ ("&ip=".data ++ (host ++ ("&p=".data ++ (natToDecimal port
          ++ ("&d=".data ++ did))))))))).map pairOf
      = [("i".data, rid), ("ip".data, host), ("p".data, natToDecimal port),
         ("d".data, did)] := by
    rw [hqueryOf, hqform, hsplit, List.map_cons, List.map_cons, List.map_cons,
        List.map_cons, List.map_nil, p1, p2, p3, p4]
  have hfi : findKey [(("i".data : List Char), rid), ("ip".data, host),
      ("p".data, natToDecimal port), ("d".data, did)] "i".data = some rid := rfl
  have hfip : findKey [(("i".data : List Char), rid), ("ip".data, host),
      ("p".data, natToDecimal port), ("d".data, did)] "ip".data = some host := rfl
  have hfp : findKey [(("i".data : List Char), rid), ("ip".data, host),
      ("p".data, natToDecimal port), ("d".data, did)] "p".data
      = some (natToDecimal port) := rfl
  have s0 : request_download ("https://s.intershare.app?i=".data ++ (rid
        ++ ("&ip=".data ++ (host ++ ("&p=".data ++ (natToDecimal port
          ++ ("&d=".data ++ did)))))))
      = rdStage0 "s.intershare.app".data
          ((splitSep '&' (queryOf ("https://s.intershare.app?i=".data ++ (rid
            ++ ("&ip=".data ++ (host ++ ("&p=".data ++ (natToDecimal port
              ++ ("&d=".data ++ did))))))))).map pairOf) := by
    unfold request_download
    rw [hostOf_render]
  have s1 : rdStage0 "s.intershare.app".data
        ((splitSep '&' (queryOf ("https://s.intershare.app?i=".data ++ (rid
          ++ ("&ip=".data ++ (host ++ ("&p=".data ++ (natToDecimal port
            ++ ("&d=".data ++ did))))))))).map pairOf)
      = rdStage1 rid [("i".data, rid), ("ip".data, host), ("p".data, natToDecimal port),
          ("d".data, did)] := by
    unfold rdStage0
    rw [if_neg (by simp), hpairs, hfi]
  have s2 : rdStage1 rid [(("i".data : List Char), rid), ("ip".data, host),
        ("p".data, natToDecimal port), ("d".data, did)]
      = rdStage2 rid host [("i".data, rid), ("ip".data, host),
          ("p".data, natToDecimal port), ("d".data, did)] := by
    unfold rdStage1
    rw [if_neg hrid0, hfip]
  have s3 : rdStage2 rid host [(("i".data : List Char), rid), ("ip".data, host),
        ("p".data, natToDecimal port), ("d".data, did)]
      = rdStage3 rid host (natToDecimal port) := by
    unfold rdStage2
    rw [if_neg hhost0, hfp]
  have s4 : rdStage3 rid host (natToDecimal port) = .parsed rid host port := by
    unfold rdStage3
    rw [if_neg (natToDecimal_ne_nil port), parseU32_natToDecimal port hport]
  exact s0.trans (s1.trans (s2.trans (s3.trans s4)))

/-- Claim C9 (amended): for every `ShareStore` with `allow_convenience_share`
set and both a device and TCP coordinates in its connection info — whose
request id and hostname are non-empty and, like the device id, consist of
URL-plain characters (as the base64url request ids and IP-address
hostnames produced by the code do) — the link returned by `generate_link`
passes `request_download`'s validation, and the values recovered for `i`,
`ip` and `p` are exactly the session's request id, the stored TCP hostname
and the stored port. -/
theorem generate_link_roundtrip (s : ShareStoreM) (device : Device)
    (tcp : TcpConnectionInfo)
    (hallow : s.allow_convenience_share = true)
    (hdev : s.device_connection_info.device = some device)
    (htcp : s.device_connection_info.tcp = some tcp)
    (hrid0 : s.request_id.data ≠ [])
    (hrid : ∀ c ∈ s.request_id.data, urlPlain c = true)
    (hhost0 : tcp.hostname.data ≠ [])
    (hhost : ∀ c ∈ tcp.hostname.data, urlPlain c = true)
    (hdid : ∀ c ∈ device.id.data, urlPlain c = true)
    (hport : tcp.port < 2 ^ 32) :
    ∃ link, generate_link s = some link ∧
      request_download link = .parsed s.request_id.data tcp.hostname.data tcp.port := by
  refine ⟨_, ?_, request_download_render s.request_id.data tcp.hostname.data
    device.id.data tcp.port hrid0 hrid hhost0 hhost hdid hport⟩
  simp [generate_link, hallow, hdev, htcp]

def storeC9ok : ShareStoreM :=
  { request_id := "Rid123", allow_convenience_share := true,
    device_connection_info :=
      { device := some ⟨"DEV-1", "Dev", some 1⟩, ble := none,
        tcp := some ⟨"192.168.1.7", 4251⟩ } }

theorem generate_link_roundtrip_witness :
    ∃ link, generate_link storeC9ok = some link ∧
      request_download link = .parsed "Rid123".data "192.168.1.7".data 4251 :=
  generate_link_roundtrip storeC9ok ⟨"DEV-1", "Dev", some 1⟩ ⟨"192.168.1.7", 4251⟩
    rfl rfl rfl (by decide) (by decide) (by decide) (by decide) (by decide) (by decide)

def storeC9bad : ShareStoreM :=
  { request_id := "R", allow_convenience_share := true,
    device_connection_info :=
      { device := some ⟨"D", "Dev", some 1⟩, ble := none, tcp := some ⟨"", 4251⟩ } }

/-- Claim C9 counterexample: a `ShareStore` with convenience sharing
allowed and both a device and TCP coordinates present, but an empty TCP
hostname, produces a link `...&ip=&p=4251...` that `request_download`
rejects (`ip` is empty), refuting the claim for every such store. -/
theorem generate_link_empty_host_rejected :
    storeC9bad.allow_convenience_share = true ∧
    storeC9bad.device_connection_info.device.isSome = true ∧
    storeC9bad.device_connection_info.tcp.isSome = true ∧
    (generate_link storeC9bad).map request_download = some .notAValidLink :=
  ⟨rfl, rfl, rfl, by decide⟩

end InterShare
